import Mathlib

/-! Block-reduction kernel dispatch (`include/targets/cuda/block_reduction_kernel.h`).

A shallow embedding of the block-index swizzle `virtual_block_idx`, the
argument decoration `BlockKernelArg`, the kernel body `BlockKernel2D_impl`
and the launch-bounds expression of the two `BlockKernel2D` entry points.

Machine integers are natural numbers and integers with explicit reduction
modulo `2^32`: `blockIdx`, `gridDim`, `blockDim`, `threadIdx` and `dim3` hold
`unsigned int`, `swizzle_factor` and the value returned by
`virtual_block_idx` are `int`.  A zero divisor (undefined behaviour in C++)
is the `none` result.
-/

namespace quda

/-! ## Machine words -/

/-- Conversion of an `int` to `unsigned int`: reduction modulo `2^32`. -/
def toUnsigned (x : Int) : Nat := (x % 4294967296).toNat

/-- Conversion of an `unsigned int` to `int`: the two's complement reading of
the 32-bit word. -/
def toInt (n : Nat) : Int :=
  if n % 4294967296 < 2147483648 then ((n % 4294967296 : Nat) : Int)
  else ((n % 4294967296 : Nat) : Int) - 4294967296

/-! ## Data model -/

/-- The CUDA `dim3` / `uint3` triple of `unsigned int`. -/
structure Dim3 where
  x : Nat
  y : Nat
  z : Nat
deriving DecidableEq

/-- The built-in variables one device thread reads. -/
structure Builtins where
  blockIdx : Dim3
  threadIdx : Dim3
  blockDim : Dim3
  gridDim : Dim3
deriving DecidableEq

/-- The members of the template parameter `Arg` that this header reads:
`arg.swizzle`, `arg.swizzle_factor` and `arg.threads`. -/
class KernelArg (A : Type) where
  swizzle : A → Bool
  swizzle_factor : A → Int
  threads : A → Dim3

/-- A concrete argument struct carrying just the members the header reads. -/
structure PlainArg where
  swizzle : Bool
  swizzle_factor : Int
  threads : Dim3
deriving DecidableEq

instance : KernelArg PlainArg where
  swizzle := PlainArg.swizzle
  swizzle_factor := PlainArg.swizzle_factor
  threads := PlainArg.threads

/-! ## `virtual_block_idx` -/

/-- The local `gridp` of `virtual_block_idx` (line 25),
`gridDim.x - gridDim.x % arg.swizzle_factor`, in `unsigned int`: the
remainder never exceeds `gridDim.x`, so the subtraction does not wrap. -/
def gridp (gridDim_x : Nat) (swizzle_factor : Int) : Nat :=
  (gridDim_x - gridDim_x % toUnsigned swizzle_factor) % 4294967296

/-- The function `virtual_block_idx` (lines 20-38).  `blockIdx_x` and
`gridDim_x` are the two built-in variables it reads.  The operands of `%` and
`/` are `unsigned int` and `int`, so the `int` is converted to
`unsigned int`; `i` and `j` are `int`; the product and the sum are formed in
`unsigned int`; the result is converted to the `int` return type.  A zero
divisor gives `none`. -/
def virtual_block_idx {A : Type} [KernelArg A] (blockIdx_x gridDim_x : Nat) (arg : A) :
    Option Int :=
  let block_idx := blockIdx_x
  if KernelArg.swizzle arg then
    let factor := toUnsigned (KernelArg.swizzle_factor arg)
    if factor = 0 then none
    else
      let gridp := gridp gridDim_x (KernelArg.swizzle_factor arg)
      let block_idx := blockIdx_x
      if block_idx < gridp then
        let i : Int := toInt (blockIdx_x % factor)
        let j : Int := toInt (blockIdx_x / factor)
        let block_idx :=
          (toUnsigned i * (gridp / factor) % 4294967296 + toUnsigned j) % 4294967296
        some (toInt block_idx)
      else some (toInt block_idx)
  else some (toInt block_idx)

/-- Reference definition following the specification's words (section 4.1):
`gridp = extent - extent % swizzle_factor`; an index below `gridp` goes to
`i * (gridp / swizzle_factor) + j` with `i = index % swizzle_factor` and
`j = index / swizzle_factor`; any other index passes through.  Unbounded
natural numbers. -/
def swizzle_reference (index extent swizzle_factor : Nat) : Nat :=
  if index < extent - extent % swizzle_factor then
    (index % swizzle_factor) * ((extent - extent % swizzle_factor) / swizzle_factor)
      + index / swizzle_factor
  else index

/-! ## `BlockKernelArg` -/

/-- The struct `BlockKernelArg<block_size_, Arg_>` (lines 49-53).  It derives
from `Arg_` and adds no data member, so a value is its base subobject; the
constructor `BlockKernelArg(const Arg &arg) : Arg(arg)` is `BlockKernelArg.mk`. -/
structure BlockKernelArg (block_size_ : Nat) (Arg_ : Type) where
  toArg : Arg_

/-- The static member `block_size` of `BlockKernelArg` (line 51). -/
def BlockKernelArg.block_size {block_size_ : Nat} {Arg_ : Type}
    (_ : BlockKernelArg block_size_ Arg_) : Nat :=
  block_size_

/-- The members `BlockKernelArg` inherits from `Arg_`. -/
instance {block_size_ : Nat} {Arg_ : Type} [KernelArg Arg_] :
    KernelArg (BlockKernelArg block_size_ Arg_) where
  swizzle w := KernelArg.swizzle w.toArg
  swizzle_factor w := KernelArg.swizzle_factor w.toArg
  threads w := KernelArg.threads w.toArg

/-! ## `BlockKernel2D_impl` -/

/-- The function `BlockKernel2D_impl` (lines 68-78) as a state transformer.
`Functor arg` is the object `t` constructed from `arg`, and
`Functor arg block_idx thread_idx` is the effect of the call
`t(block_idx, thread_idx)` on the state.  `dim3 block_idx` converts the `int`
returned by `virtual_block_idx` to `unsigned int`; `j` is an `unsigned int`.
The result is `none` when `virtual_block_idx` divides by zero. -/
def BlockKernel2D_impl {A σ : Type} [KernelArg A] (Functor : A → Dim3 → Dim3 → σ → σ)
    (c : Builtins) (arg : A) (s : σ) : Option σ :=
  match virtual_block_idx c.blockIdx.x c.gridDim.x arg with
  | none => none
  | some v =>
    let block_idx : Dim3 := ⟨toUnsigned v, c.blockIdx.y, 0⟩
    let thread_idx : Dim3 := ⟨c.threadIdx.x, c.threadIdx.y, 0⟩
    let j := (c.blockDim.y * c.blockIdx.y % 4294967296 + c.threadIdx.y) % 4294967296
    if j ≥ (KernelArg.threads arg).y then some s
    else some (Functor arg block_idx thread_idx s)

/-- One functor invocation: the argument the functor was constructed from and
the two coordinates it was called with. -/
structure Invocation (A : Type) where
  arg : A
  block_idx : Dim3
  thread_idx : Dim3
deriving DecidableEq

/-- The functor that appends its invocation to a trace. -/
def recordInvocation {A : Type} (arg : A) (block_idx thread_idx : Dim3)
    (trace : List (Invocation A)) : List (Invocation A) :=
  trace ++ [⟨arg, block_idx, thread_idx⟩]

/-! ## Launch bounds of the entry points -/

/-- The `__launch_bounds__` expression of the value-mode `BlockKernel2D`
(lines 95-97): `Arg::launch_bounds || Arg::block_size > 512 ? Arg::block_size : 0`. -/
def BlockKernel2D_value_launch_bounds (launch_bounds : Bool) (block_size : Nat) : Nat :=
  if launch_bounds || decide (block_size > 512) then block_size else 0

/-- The `__launch_bounds__` expression of the resident-mode `BlockKernel2D`
(lines 118-120). -/
def BlockKernel2D_resident_launch_bounds (launch_bounds : Bool) (block_size : Nat) : Nat :=
  if launch_bounds || decide (block_size > 512) then block_size else 0

/-! ## The entry points `BlockKernel2D` -/

/-- The message of the `static_assert` of both entry points (lines 99, 122). -/
def grid_stride_message : String := "grid_stride not supported for BlockKernel"

/-- The value-mode entry point `BlockKernel2D(Arg arg)` (lines 94-101), the
overload enabled when `device::use_kernel_arg<Arg>()` holds.  The outer
`Except` is the result of instantiating the template with `grid_stride`: the
`static_assert(!grid_stride, ...)` of line 99 fails the build.  An
instantiated kernel forwards `arg` to `BlockKernel2D_impl`. -/
def BlockKernel2D_value {A σ : Type} [KernelArg A] (grid_stride : Bool)
    (Functor : A → Dim3 → Dim3 → σ → σ) (c : Builtins) (arg : A) (s : σ) :
    Except String (Option σ) :=
  if !grid_stride then Except.ok (BlockKernel2D_impl Functor c arg s)
  else Except.error grid_stride_message

/-- The resident-mode entry point `BlockKernel2D()` (lines 117-124), the
overload enabled when `device::use_kernel_arg<Arg>()` does not hold.  It
takes no payload; `get_arg` is the value `device::get_arg<Arg>()` returns,
the copy of the argument staged on the device before the launch.  The
`static_assert` of line 122 is as in the value-mode entry point. -/
def BlockKernel2D_resident {A σ : Type} [KernelArg A] (grid_stride : Bool)
    (Functor : A → Dim3 → Dim3 → σ → σ) (c : Builtins) (get_arg : A) (s : σ) :
    Except String (Option σ) :=
  if !grid_stride then Except.ok (BlockKernel2D_impl Functor c get_arg s)
  else Except.error grid_stride_message

/-! ## Machine-word lemmas -/

theorem toUnsigned_natCast (n : Nat) (h : n < 4294967296) : toUnsigned (n : Int) = n := by
  unfold toUnsigned
  have h1 : ((n : Int) % 4294967296) = (n : Int) :=
    Int.emod_eq_of_lt (Int.ofNat_nonneg n) (by exact_mod_cast h)
  rw [h1]
  exact Int.toNat_natCast n

theorem toInt_of_lt (n : Nat) (h : n < 2147483648) : toInt n = (n : Int) := by
  unfold toInt
  have h1 : n % 4294967296 = n := Nat.mod_eq_of_lt (by omega)
  rw [h1, if_pos h]

theorem toUnsigned_toInt (n : Nat) (h : n < 2147483648) : toUnsigned (toInt n) = n := by
  rw [toInt_of_lt n h, toUnsigned_natCast n (by omega)]

/-! ## Arithmetic of the transposition -/

theorem sub_mod_eq_mul_div (E F : Nat) : E - E % F = F * (E / F) := by
  have := Nat.div_add_mod E F
  omega

theorem divisible_part_div (E F : Nat) (hF : 0 < F) : (E - E % F) / F = E / F := by
  rw [sub_mod_eq_mul_div, Nat.mul_div_cancel_left _ hF]

theorem transpose_lt (F G b : Nat) (hF : 0 < F) (hb : b < F * G) :
    (b % F) * G + b / F < F * G := by
  have h1 : b / F < G := by
    rw [Nat.div_lt_iff_lt_mul hF, Nat.mul_comm]
    exact hb
  have h2 : b % F < F := Nat.mod_lt _ hF
  nlinarith

theorem transpose_div_mod (F G b : Nat) (hF : 0 < F) (hb : b < F * G) :
    ((b % F) * G + b / F) / G = b % F ∧ ((b % F) * G + b / F) % G = b / F := by
  have h1 : b / F < G := by
    rw [Nat.div_lt_iff_lt_mul hF, Nat.mul_comm]
    exact hb
  have hG : 0 < G := Nat.lt_of_le_of_lt (Nat.zero_le _) h1
  constructor
  · rw [Nat.mul_comm (b % F) G, Nat.mul_add_div hG, Nat.div_eq_of_lt h1, Nat.add_zero]
  · rw [Nat.mul_comm (b % F) G, Nat.mul_add_mod, Nat.mod_eq_of_lt h1]

/-! ## The reference swizzle over natural numbers -/

theorem swizzle_reference_eq (b E F : Nat) (hF : 0 < F) :
    swizzle_reference b E F =
      if b < F * (E / F) then (b % F) * (E / F) + b / F else b := by
  unfold swizzle_reference
  rw [divisible_part_div E F hF, sub_mod_eq_mul_div]

theorem divisible_part_le (E F : Nat) : F * (E / F) ≤ E := by
  have := Nat.div_add_mod E F
  omega

theorem swizzle_reference_lt_part (b E F : Nat) (hF : 0 < F) (hb : b < F * (E / F)) :
    swizzle_reference b E F < F * (E / F) := by
  rw [swizzle_reference_eq b E F hF, if_pos hb]
  exact transpose_lt F (E / F) b hF hb

theorem swizzle_reference_fixed (b E F : Nat) (hF : 0 < F) (hb : F * (E / F) ≤ b) :
    swizzle_reference b E F = b := by
  rw [swizzle_reference_eq b E F hF, if_neg (by omega)]

theorem swizzle_reference_lt (b E F : Nat) (hF : 0 < F) (hb : b < E) :
    swizzle_reference b E F < E := by
  by_cases h : b < F * (E / F)
  · exact Nat.lt_of_lt_of_le (swizzle_reference_lt_part b E F hF h) (divisible_part_le E F)
  · rw [swizzle_reference_fixed b E F hF (by omega)]
    exact hb

theorem swizzle_reference_injective (b b' E F : Nat) (hF : 0 < F)
    (h : swizzle_reference b E F = swizzle_reference b' E F) : b = b' := by
  by_cases hb : b < F * (E / F)
  · by_cases hb' : b' < F * (E / F)
    · rw [swizzle_reference_eq b E F hF, if_pos hb, swizzle_reference_eq b' E F hF,
        if_pos hb'] at h
      obtain ⟨h1, h2⟩ := transpose_div_mod F (E / F) b hF hb
      obtain ⟨h3, h4⟩ := transpose_div_mod F (E / F) b' hF hb'
      rw [h] at h1 h2
      have hm : b % F = b' % F := by rw [← h1, h3]
      have hd : b / F = b' / F := by rw [← h2, h4]
      have e1 := Nat.div_add_mod b F
      have e2 := Nat.div_add_mod b' F
      rw [hm, hd] at e1
      omega
    · have h1 := swizzle_reference_lt_part b E F hF hb
      rw [h, swizzle_reference_fixed b' E F hF (by omega)] at h1
      omega
  · by_cases hb' : b' < F * (E / F)
    · have h1 := swizzle_reference_lt_part b' E F hF hb'
      rw [← h, swizzle_reference_fixed b E F hF (by omega)] at h1
      omega
    · rw [swizzle_reference_fixed b E F hF (by omega),
        swizzle_reference_fixed b' E F hF (by omega)] at h
      exact h

theorem swizzle_reference_surjective_part (v E F : Nat) (hF : 0 < F) (hv : v < F * (E / F)) :
    ∃ b, b < F * (E / F) ∧ swizzle_reference b E F = v := by
  have hG : 0 < E / F := by
    rcases Nat.eq_zero_or_pos (E / F) with h0 | h0
    · rw [h0] at hv
      omega
    · exact h0
  have hv' : v < (E / F) * F := by rw [Nat.mul_comm]; exact hv
  have hlt := transpose_lt (E / F) F v hG hv'
  obtain ⟨h1, h2⟩ := transpose_div_mod (E / F) F v hG hv'
  refine ⟨(v % (E / F)) * F + v / (E / F), ?_, ?_⟩
  · rw [Nat.mul_comm F (E / F)]
    exact hlt
  · rw [swizzle_reference_eq _ E F hF, if_pos (by rw [Nat.mul_comm F (E / F)]; exact hlt),
      h1, h2, Nat.mul_comm]
    exact Nat.div_add_mod v (E / F)

theorem swizzle_reference_surjective (v E F : Nat) (hF : 0 < F) (hv : v < E) :
    ∃ b, b < E ∧ swizzle_reference b E F = v := by
  by_cases h : v < F * (E / F)
  · obtain ⟨b, hb, hbv⟩ := swizzle_reference_surjective_part v E F hF h
    exact ⟨b, Nat.lt_of_lt_of_le hb (divisible_part_le E F), hbv⟩
  · exact ⟨v, hv, swizzle_reference_fixed v E F hF (by omega)⟩

/-! ## The code agrees with the reference on the hardware range -/

theorem virtual_block_idx_eq_reference {A : Type} [KernelArg A] (arg : A) (b E F : Nat)
    (hsw : KernelArg.swizzle arg = true) (hfac : KernelArg.swizzle_factor arg = (F : Int))
    (hF1 : 1 ≤ F) (hF : F < 2147483648) (hE : E < 2147483648) (hb : b < E) :
    virtual_block_idx b E arg = some ((swizzle_reference b E F : Nat) : Int) := by
  have hF0 : 0 < F := hF1
  have hu : toUnsigned (F : Int) = F := toUnsigned_natCast F (by omega)
  have hle : F * (E / F) ≤ E := divisible_part_le E F
  have hgp : gridp E (F : Int) = F * (E / F) := by
    unfold gridp
    rw [hu, sub_mod_eq_mul_div]
    exact Nat.mod_eq_of_lt (by omega)
  unfold virtual_block_idx
  simp only [hsw, hfac, hu, hgp, if_true]
  rw [if_neg (by omega), swizzle_reference_eq b E F hF0]
  by_cases h : b < F * (E / F)
  · rw [if_pos h, if_pos h]
    have hi : b % F < F := Nat.mod_lt _ hF0
    have hj : b / F ≤ b := Nat.div_le_self b F
    have hlt := transpose_lt F (E / F) b hF0 h
    rw [toUnsigned_toInt (b % F) (by omega), toUnsigned_toInt (b / F) (by omega),
      Nat.mul_div_cancel_left _ hF0]
    have hs : b % F * (E / F) + b / F < 2147483648 :=
      Nat.lt_of_lt_of_le hlt (Nat.le_trans hle (Nat.le_of_lt hE))
    have hp : b % F * (E / F) < 4294967296 :=
      Nat.lt_of_le_of_lt (Nat.le_add_right _ _) (Nat.lt_trans hs (by decide))
    rw [Nat.mod_eq_of_lt hp, Nat.mod_eq_of_lt (Nat.lt_trans hs (by decide)),
      toInt_of_lt _ hs]
  · rw [if_neg h, if_neg h, toInt_of_lt b (by omega)]

theorem swizzle_reference_factor_one (b E : Nat) (hb : b < E) : swizzle_reference b E 1 = b := by
  rw [swizzle_reference_eq b E 1 Nat.one_pos]
  simp [Nat.mod_one, hb]

theorem swizzle_reference_large_factor (b E F : Nat) (hFE : E ≤ F) (hb : b < E) :
    swizzle_reference b E F = b := by
  have hF : 0 < F := by omega
  rcases Nat.eq_or_lt_of_le hFE with h | h
  · subst h
    rw [swizzle_reference_eq b E E hF, Nat.div_self hF, Nat.mul_one, if_pos hb,
      Nat.mod_eq_of_lt hb, Nat.div_eq_of_lt hb, Nat.mul_one, Nat.add_zero]
  · rw [swizzle_reference_eq b E F hF, Nat.div_eq_of_lt h, Nat.mul_zero,
      if_neg (Nat.not_lt_zero b)]

theorem toUnsigned_ne_zero (x : Int) (hlo : -2147483648 ≤ x) (hhi : x < 2147483648)
    (hx : x ≠ 0) : toUnsigned x ≠ 0 := by
  unfold toUnsigned
  omega

theorem virtual_block_idx_defined {A : Type} [KernelArg A] (arg : A) (b E : Nat)
    (h : KernelArg.swizzle arg = true → toUnsigned (KernelArg.swizzle_factor arg) ≠ 0) :
    ∃ v : Int, virtual_block_idx b E arg = some v := by
  unfold virtual_block_idx
  by_cases hsw : KernelArg.swizzle arg = true
  · simp only [hsw, if_true, if_neg (h hsw)]
    split
    · exact ⟨_, rfl⟩
    · exact ⟨_, rfl⟩
  · simp only [hsw]
    exact ⟨_, rfl⟩

theorem BlockKernel2D_impl_of_some {A σ : Type} [KernelArg A]
    (Functor : A → Dim3 → Dim3 → σ → σ) (c : Builtins) (arg : A) (s : σ) (v : Int)
    (hv : virtual_block_idx c.blockIdx.x c.gridDim.x arg = some v) :
    BlockKernel2D_impl Functor c arg s =
      if (c.blockDim.y * c.blockIdx.y % 4294967296 + c.threadIdx.y) % 4294967296
          ≥ (KernelArg.threads arg).y then some s
      else some (Functor arg ⟨toUnsigned v, c.blockIdx.y, 0⟩ ⟨c.threadIdx.x, c.threadIdx.y, 0⟩ s) := by
  unfold BlockKernel2D_impl
  rw [hv]

/-! ## Claims -/

/-- C1: with swizzle enabled, a grid extent `E` and a factor `1 ≤ F ≤ E`
(so `E > 0`), `index ↦ virtual_block_idx` is a bijection of `[0, E)` onto
itself: every result lies in `[0, E)`, distinct indices give distinct
results, and every value of `[0, E)` is a result.  `E < 2^31` is the CUDA
limit on `gridDim.x`, within which the `int` result holds every index. -/
theorem virtual_block_idx_bijective {A : Type} [KernelArg A] (arg : A) (E F : Nat)
    (hsw : KernelArg.swizzle arg = true) (hfac : KernelArg.swizzle_factor arg = (F : Int))
    (hE : E < 2147483648) (hF1 : 1 ≤ F) (hFE : F ≤ E) :
    (∀ b, b < E → ∃ v : Nat, v < E ∧ virtual_block_idx b E arg = some (v : Int)) ∧
    (∀ b b', b < E → b' < E →
      virtual_block_idx b E arg = virtual_block_idx b' E arg → b = b') ∧
    (∀ v, v < E → ∃ b, b < E ∧ virtual_block_idx b E arg = some (v : Int)) := by
  have hF : F < 2147483648 := by omega
  refine ⟨?_, ?_, ?_⟩
  · intro b hb
    exact ⟨swizzle_reference b E F, swizzle_reference_lt b E F hF1 hb,
      virtual_block_idx_eq_reference arg b E F hsw hfac hF1 hF hE hb⟩
  · intro b b' hb hb' h
    rw [virtual_block_idx_eq_reference arg b E F hsw hfac hF1 hF hE hb,
      virtual_block_idx_eq_reference arg b' E F hsw hfac hF1 hF hE hb'] at h
    have h' : swizzle_reference b E F = swizzle_reference b' E F :=
      Int.ofNat.inj (Option.some.inj h)
    exact swizzle_reference_injective b b' E F hF1 h'
  · intro v hv
    obtain ⟨b, hb, hbv⟩ := swizzle_reference_surjective v E F hF1 hv
    refine ⟨b, hb, ?_⟩
    rw [virtual_block_idx_eq_reference arg b E F hsw hfac hF1 hF hE hb, hbv]

/-- Witness for C1 at extent 10 and factor 3. -/
theorem virtual_block_idx_bijective_witness :
    (10 : Nat) < 2147483648 ∧ 1 ≤ 3 ∧ 3 ≤ 10 ∧
    ((∀ b : Nat, b < 10 → ∃ v : Nat, v < 10 ∧
        virtual_block_idx b 10 (PlainArg.mk true 3 ⟨1, 1, 1⟩) = some (v : Int)) ∧
     (∀ b b' : Nat, b < 10 → b' < 10 →
        virtual_block_idx b 10 (PlainArg.mk true 3 ⟨1, 1, 1⟩)
          = virtual_block_idx b' 10 (PlainArg.mk true 3 ⟨1, 1, 1⟩) → b = b') ∧
     (∀ v : Nat, v < 10 → ∃ b : Nat, b < 10 ∧
        virtual_block_idx b 10 (PlainArg.mk true 3 ⟨1, 1, 1⟩) = some (v : Int))) :=
  ⟨by decide, by decide, by decide,
    virtual_block_idx_bijective (PlainArg.mk true 3 ⟨1, 1, 1⟩) 10 3 rfl rfl
      (by decide) (by decide) (by decide)⟩

/-- C2 (amended): for every argument whose `swizzle_factor` is an `int` and
is nonzero whenever `swizzle` is set, and every block and lane position with
`j = blockDim.y * blockIdx.y + threadIdx.y < arg.threads.y`,
`BlockKernel2D_impl` returns normally having invoked the functor constructed
from `arg` exactly once, with block coordinate
`(virtual_block_idx(arg), blockIdx.y, 0)` and lane coordinate
`(threadIdx.x, threadIdx.y, 0)`.  Nothing is assumed about the x indices. -/
theorem BlockKernel2D_impl_in_range {A σ : Type} [KernelArg A]
    (Functor : A → Dim3 → Dim3 → σ → σ) (c : Builtins) (arg : A) (s : σ)
    (trace : List (Invocation A))
    (hint : -2147483648 ≤ KernelArg.swizzle_factor arg ∧
      KernelArg.swizzle_factor arg < 2147483648)
    (hdef : KernelArg.swizzle arg = true → KernelArg.swizzle_factor arg ≠ 0)
    (hj : c.blockDim.y * c.blockIdx.y + c.threadIdx.y < (KernelArg.threads arg).y) :
    ∃ v : Int, virtual_block_idx c.blockIdx.x c.gridDim.x arg = some v ∧
      BlockKernel2D_impl Functor c arg s
        = some (Functor arg ⟨toUnsigned v, c.blockIdx.y, 0⟩
            ⟨c.threadIdx.x, c.threadIdx.y, 0⟩ s) ∧
      BlockKernel2D_impl recordInvocation c arg trace
        = some (trace ++ [⟨arg, ⟨toUnsigned v, c.blockIdx.y, 0⟩,
            ⟨c.threadIdx.x, c.threadIdx.y, 0⟩⟩]) := by
  obtain ⟨v, hv⟩ := virtual_block_idx_defined arg c.blockIdx.x c.gridDim.x
    (fun h => toUnsigned_ne_zero _ hint.1 hint.2 (hdef h))
  have hlt : ¬ (c.blockDim.y * c.blockIdx.y % 4294967296 + c.threadIdx.y) % 4294967296
      ≥ (KernelArg.threads arg).y := by
    have h1 : c.blockDim.y * c.blockIdx.y % 4294967296 ≤ c.blockDim.y * c.blockIdx.y :=
      Nat.mod_le _ _
    have h2 : (c.blockDim.y * c.blockIdx.y % 4294967296 + c.threadIdx.y) % 4294967296
        ≤ c.blockDim.y * c.blockIdx.y % 4294967296 + c.threadIdx.y := Nat.mod_le _ _
    omega
  refine ⟨v, hv, ?_, ?_⟩
  · rw [BlockKernel2D_impl_of_some Functor c arg s v hv, if_neg hlt]
  · rw [BlockKernel2D_impl_of_some recordInvocation c arg trace v hv, if_neg hlt]
    rfl

/-- Witness for C2: block (7, 2), lane (5, 1), `blockDim.y = 4`, so `j = 9`,
with `threads.y = 10`, extent 10 and swizzle factor 3. -/
theorem BlockKernel2D_impl_in_range_witness :
    ((-2147483648 : Int) ≤ 3 ∧ (3 : Int) < 2147483648) ∧ (4 * 2 + 1 < 10) ∧
    ∃ v : Int, virtual_block_idx 7 10 (PlainArg.mk true 3 ⟨64, 10, 1⟩) = some v ∧
      BlockKernel2D_impl (fun _ _ _ (n : Nat) => n + 1)
          ⟨⟨7, 2, 0⟩, ⟨5, 1, 0⟩, ⟨64, 4, 1⟩, ⟨10, 3, 1⟩⟩ (PlainArg.mk true 3 ⟨64, 10, 1⟩) 0
        = some 1 ∧
      BlockKernel2D_impl recordInvocation
          ⟨⟨7, 2, 0⟩, ⟨5, 1, 0⟩, ⟨64, 4, 1⟩, ⟨10, 3, 1⟩⟩ (PlainArg.mk true 3 ⟨64, 10, 1⟩) []
        = some ([] ++ [⟨PlainArg.mk true 3 ⟨64, 10, 1⟩, ⟨toUnsigned v, 2, 0⟩, ⟨5, 1, 0⟩⟩]) :=
  ⟨⟨by decide, by decide⟩, by decide,
    BlockKernel2D_impl_in_range (fun _ _ _ (n : Nat) => n + 1)
      ⟨⟨7, 2, 0⟩, ⟨5, 1, 0⟩, ⟨64, 4, 1⟩, ⟨10, 3, 1⟩⟩ (PlainArg.mk true 3 ⟨64, 10, 1⟩) 0 []
      ⟨by decide, by decide⟩ (fun _ => by decide) (by decide)⟩

/-- C2 as stated fails: with `swizzle` set and `swizzle_factor = 0` the body
divides by zero in `virtual_block_idx` (line 25) before anything else, so for
the in-range lane `j = 1 * 0 + 0 < 1 = threads.y` no functor invocation is
guaranteed: the embedding yields `none`. -/
theorem BlockKernel2D_impl_in_range_zero_factor :
    (1 * 0 + 0 < (KernelArg.threads (PlainArg.mk true 0 ⟨1, 1, 1⟩)).y) ∧
    virtual_block_idx 0 1 (PlainArg.mk true 0 ⟨1, 1, 1⟩) = none ∧
    BlockKernel2D_impl recordInvocation ⟨⟨0, 0, 0⟩, ⟨0, 0, 0⟩, ⟨1, 1, 1⟩, ⟨1, 1, 1⟩⟩
      (PlainArg.mk true 0 ⟨1, 1, 1⟩) [] = none := by
  refine ⟨by decide, by decide, by decide⟩

/-- C3 (amended): for every argument whose `swizzle_factor` is an `int` and
is nonzero whenever `swizzle` is set, and every block and lane position with
`j = blockDim.y * blockIdx.y + threadIdx.y ≥ arg.threads.y` (`j` within
`unsigned int`, as the CUDA launch limits guarantee), `BlockKernel2D_impl`
returns normally, invokes the functor zero times and leaves the state
unchanged. -/
theorem BlockKernel2D_impl_out_of_range {A σ : Type} [KernelArg A]
    (Functor : A → Dim3 → Dim3 → σ → σ) (c : Builtins) (arg : A) (s : σ)
    (trace : List (Invocation A))
    (hint : -2147483648 ≤ KernelArg.swizzle_factor arg ∧
      KernelArg.swizzle_factor arg < 2147483648)
    (hdef : KernelArg.swizzle arg = true → KernelArg.swizzle_factor arg ≠ 0)
    (hword : c.blockDim.y * c.blockIdx.y + c.threadIdx.y < 4294967296)
    (hj : (KernelArg.threads arg).y ≤ c.blockDim.y * c.blockIdx.y + c.threadIdx.y) :
    BlockKernel2D_impl Functor c arg s = some s ∧
    BlockKernel2D_impl recordInvocation c arg trace = some trace := by
  obtain ⟨v, hv⟩ := virtual_block_idx_defined arg c.blockIdx.x c.gridDim.x
    (fun h => toUnsigned_ne_zero _ hint.1 hint.2 (hdef h))
  have hge : (c.blockDim.y * c.blockIdx.y % 4294967296 + c.threadIdx.y) % 4294967296
      ≥ (KernelArg.threads arg).y := by
    have h1 : c.blockDim.y * c.blockIdx.y % 4294967296 = c.blockDim.y * c.blockIdx.y :=
      Nat.mod_eq_of_lt (by omega)
    rw [h1, Nat.mod_eq_of_lt hword]
    exact hj
  constructor
  · rw [BlockKernel2D_impl_of_some Functor c arg s v hv, if_pos hge]
  · rw [BlockKernel2D_impl_of_some recordInvocation c arg trace v hv, if_pos hge]

/-- Witness for C3: block (7, 2), lane (5, 3), `blockDim.y = 4`, so `j = 11`,
with `threads.y = 10`. -/
theorem BlockKernel2D_impl_out_of_range_witness :
    ((-2147483648 : Int) ≤ 3 ∧ (3 : Int) < 2147483648) ∧ (4 * 2 + 3 < 4294967296) ∧
    (10 ≤ 4 * 2 + 3) ∧
    BlockKernel2D_impl (fun _ _ _ (n : Nat) => n + 1)
        ⟨⟨7, 2, 0⟩, ⟨5, 3, 0⟩, ⟨64, 4, 1⟩, ⟨10, 3, 1⟩⟩ (PlainArg.mk true 3 ⟨64, 10, 1⟩) 0
      = some 0 ∧
    BlockKernel2D_impl recordInvocation
        ⟨⟨7, 2, 0⟩, ⟨5, 3, 0⟩, ⟨64, 4, 1⟩, ⟨10, 3, 1⟩⟩ (PlainArg.mk true 3 ⟨64, 10, 1⟩) []
      = some [] :=
  ⟨⟨by decide, by decide⟩, by decide, by decide,
    BlockKernel2D_impl_out_of_range (fun _ _ _ (n : Nat) => n + 1)
      ⟨⟨7, 2, 0⟩, ⟨5, 3, 0⟩, ⟨64, 4, 1⟩, ⟨10, 3, 1⟩⟩ (PlainArg.mk true 3 ⟨64, 10, 1⟩) 0 []
      ⟨by decide, by decide⟩ (fun _ => by decide) (by decide) (by decide)⟩

/-- C3 as stated fails: with `swizzle` set and `swizzle_factor = 0` the body
divides by zero in `virtual_block_idx` (line 25) before the bounds check of
line 74 is reached, so the out-of-range lane `j = 1 * 0 + 0 ≥ 0 = threads.y`
is not a silent early exit: the embedding yields `none`, not the unchanged
trace. -/
theorem BlockKernel2D_impl_out_of_range_zero_factor :
    ((KernelArg.threads (PlainArg.mk true 0 ⟨1, 0, 1⟩)).y ≤ 1 * 0 + 0) ∧
    BlockKernel2D_impl recordInvocation ⟨⟨0, 0, 0⟩, ⟨0, 0, 0⟩, ⟨1, 1, 1⟩, ⟨1, 1, 1⟩⟩
      (PlainArg.mk true 0 ⟨1, 0, 1⟩) [] ≠ some [] := by
  refine ⟨by decide, by decide⟩

/-- C4: when `arg.swizzle` is false, `virtual_block_idx` returns `blockIdx.x`
unchanged, for every block index (below `2^31`, the CUDA limit on
`gridDim.x`, so that it fits the `int` result), every grid extent and every
`swizzle_factor`, zero included: no division is evaluated on that path. -/
theorem virtual_block_idx_swizzle_off {A : Type} [KernelArg A] (arg : A) (b E : Nat)
    (hsw : KernelArg.swizzle arg = false) (hb : b < 2147483648) :
    virtual_block_idx b E arg = some (b : Int) := by
  unfold virtual_block_idx
  simp only [hsw, Bool.false_eq_true, if_false]
  rw [toInt_of_lt b hb]

/-- Witness for C4: swizzle off, `swizzle_factor = 0`, index 12 in a grid of
extent 5. -/
theorem virtual_block_idx_swizzle_off_witness :
    (12 : Nat) < 2147483648 ∧
    virtual_block_idx 12 5 (PlainArg.mk false 0 ⟨1, 1, 1⟩) = some ((12 : Nat) : Int) :=
  ⟨by decide,
    virtual_block_idx_swizzle_off (PlainArg.mk false 0 ⟨1, 1, 1⟩) 12 5 rfl (by decide)⟩

/-- C5: with swizzle enabled and `swizzle_factor = 1`, `virtual_block_idx`
returns `blockIdx.x` unchanged for every grid extent `E` (within the CUDA
limit `E < 2^31`) and every index in `[0, E)`; `E > 0` follows from the index
being below `E`. -/
theorem virtual_block_idx_factor_one {A : Type} [KernelArg A] (arg : A) (b E : Nat)
    (hsw : KernelArg.swizzle arg = true) (hfac : KernelArg.swizzle_factor arg = 1)
    (hE : E < 2147483648) (hb : b < E) :
    virtual_block_idx b E arg = some (b : Int) := by
  have hfac' : KernelArg.swizzle_factor arg = ((1 : Nat) : Int) := by
    rw [hfac]
    rfl
  rw [virtual_block_idx_eq_reference arg b E 1 hsw hfac' (Nat.le_refl 1) (by decide) hE hb,
    swizzle_reference_factor_one b E hb]

/-- Witness for C5: index 6 of a grid of extent 7. -/
theorem virtual_block_idx_factor_one_witness :
    (7 : Nat) < 2147483648 ∧ (6 : Nat) < 7 ∧
    virtual_block_idx 6 7 (PlainArg.mk true 1 ⟨1, 1, 1⟩) = some ((6 : Nat) : Int) :=
  ⟨by decide, by decide,
    virtual_block_idx_factor_one (PlainArg.mk true 1 ⟨1, 1, 1⟩) 6 7 rfl rfl
      (by decide) (by decide)⟩

/-- C6: with swizzle enabled, for every extent `E`, factor `F ≥ 1` and index
in `[0, E)` (`E` and `F` within the `int` range, `E < 2^31` being the CUDA
limit on `gridDim.x`), `virtual_block_idx` equals the reference definition
`swizzle_reference`: with `gridp = E - E % F`, an index below `gridp` gives
`(index % F) * (gridp / F) + index / F` and any other index is unchanged. -/
theorem virtual_block_idx_refines_reference {A : Type} [KernelArg A] (arg : A)
    (index E F : Nat)
    (hsw : KernelArg.swizzle arg = true) (hfac : KernelArg.swizzle_factor arg = (F : Int))
    (hF1 : 1 ≤ F) (hF : F < 2147483648) (hE : E < 2147483648) (hb : index < E) :
    virtual_block_idx index E arg = some ((swizzle_reference index E F : Nat) : Int) ∧
    swizzle_reference index E F =
      (if index < E - E % F then (index % F) * ((E - E % F) / F) + index / F else index) :=
  ⟨virtual_block_idx_eq_reference arg index E F hsw hfac hF1 hF hE hb, rfl⟩

/-- Witness for C6: index 5 of extent 10 with factor 3 goes to `2 * 3 + 1`. -/
theorem virtual_block_idx_refines_reference_witness :
    1 ≤ 3 ∧ (3 : Nat) < 2147483648 ∧ (10 : Nat) < 2147483648 ∧ (5 : Nat) < 10 ∧
    (virtual_block_idx 5 10 (PlainArg.mk true 3 ⟨1, 1, 1⟩)
        = some ((swizzle_reference 5 10 3 : Nat) : Int) ∧
     swizzle_reference 5 10 3 =
      (if 5 < 10 - 10 % 3 then (5 % 3) * ((10 - 10 % 3) / 3) + 5 / 3 else 5)) :=
  ⟨by decide, by decide, by decide, by decide,
    virtual_block_idx_refines_reference (PlainArg.mk true 3 ⟨1, 1, 1⟩) 5 10 3 rfl rfl
      (by decide) (by decide) (by decide) (by decide)⟩

/-- C7: for extent 10 and factor 3 with swizzle enabled, `gridp` is 9 and
`virtual_block_idx` maps the indices 0..9 to 0, 3, 6, 1, 4, 7, 2, 5, 8, 9,
which is a permutation of 0..9. -/
theorem virtual_block_idx_table_10_3 :
    gridp 10 3 = 9 ∧
    (List.range 10).map (fun b => virtual_block_idx b 10 (PlainArg.mk true 3 ⟨1, 1, 1⟩))
      = [some 0, some 3, some 6, some 1, some 4, some 7, some 2, some 5, some 8, some 9] ∧
    List.Perm [0, 3, 6, 1, 4, 7, 2, 5, 8, 9] (List.range 10) := by
  refine ⟨by decide, by decide, by decide⟩

/-- C8: the launch-bounds ceiling of both `BlockKernel2D` entry points is
`block_size` when `launch_bounds` is true or `block_size > 512` and 0
otherwise, the two entry points agreeing; (128, false) gives 0,
(1024, false) gives 1024, (64, true) gives 64 and (512, false) gives 0. -/
theorem BlockKernel2D_launch_bounds_ceiling (launch_bounds : Bool) (block_size : Nat) :
    BlockKernel2D_value_launch_bounds launch_bounds block_size
      = (if launch_bounds = true ∨ 512 < block_size then block_size else 0) ∧
    BlockKernel2D_resident_launch_bounds launch_bounds block_size
      = BlockKernel2D_value_launch_bounds launch_bounds block_size ∧
    BlockKernel2D_value_launch_bounds false 128 = 0 ∧
    BlockKernel2D_resident_launch_bounds false 128 = 0 ∧
    BlockKernel2D_value_launch_bounds false 1024 = 1024 ∧
    BlockKernel2D_resident_launch_bounds false 1024 = 1024 ∧
    BlockKernel2D_value_launch_bounds true 64 = 64 ∧
    BlockKernel2D_resident_launch_bounds true 64 = 64 ∧
    BlockKernel2D_value_launch_bounds false 512 = 0 ∧
    BlockKernel2D_resident_launch_bounds false 512 = 0 := by
  refine ⟨?_, rfl, by decide, by decide, by decide, by decide, by decide, by decide,
    by decide, by decide⟩
  unfold BlockKernel2D_value_launch_bounds
  cases launch_bounds <;> simp

/-- C9: the wrapper `BlockKernelArg<B, Arg>` constructed from `a` has its base
subobject, hence every inherited member (`swizzle`, `swizzle_factor`,
`threads`), equal to that of `a`; its `block_size` is `B` whatever `a` holds;
and `virtual_block_idx` and `BlockKernel2D_impl` behave on the wrapper as on
`a`. -/
theorem BlockKernelArg_transparent {A σ : Type} [KernelArg A] (B : Nat) (a : A) :
    (BlockKernelArg.mk a : BlockKernelArg B A).toArg = a ∧
    KernelArg.swizzle (BlockKernelArg.mk a : BlockKernelArg B A) = KernelArg.swizzle a ∧
    KernelArg.swizzle_factor (BlockKernelArg.mk a : BlockKernelArg B A)
      = KernelArg.swizzle_factor a ∧
    KernelArg.threads (BlockKernelArg.mk a : BlockKernelArg B A) = KernelArg.threads a ∧
    (∀ a' : A, (BlockKernelArg.mk a' : BlockKernelArg B A).block_size = B) ∧
    (∀ b E : Nat, virtual_block_idx b E (BlockKernelArg.mk a : BlockKernelArg B A)
      = virtual_block_idx b E a) ∧
    (∀ (Functor : A → Dim3 → Dim3 → σ → σ) (c : Builtins) (s : σ),
      BlockKernel2D_impl (fun w => Functor w.toArg) c
          (BlockKernelArg.mk a : BlockKernelArg B A) s
        = BlockKernel2D_impl Functor c a s) :=
  ⟨rfl, rfl, rfl, rfl, fun _ => rfl, fun _ _ => rfl, fun _ _ _ => rfl⟩

/-- C10: with swizzle enabled, for every grid extent `E` and every factor
`F ≥ E` (both within the `int` range, `E < 2^31` being the CUDA limit),
`virtual_block_idx` returns the index unchanged for every index in `[0, E)`;
`E > 0` follows from the index being below `E`. -/
theorem virtual_block_idx_large_factor {A : Type} [KernelArg A] (arg : A) (b E F : Nat)
    (hsw : KernelArg.swizzle arg = true) (hfac : KernelArg.swizzle_factor arg = (F : Int))
    (hF : F < 2147483648) (hFE : E ≤ F) (hb : b < E) :
    virtual_block_idx b E arg = some (b : Int) := by
  rw [virtual_block_idx_eq_reference arg b E F hsw hfac (by omega) hF (by omega) hb,
    swizzle_reference_large_factor b E F hFE hb]

/-- Witness for C10: extent 4 with factor 4 and index 3. -/
theorem virtual_block_idx_large_factor_witness :
    (4 : Nat) < 2147483648 ∧ (4 : Nat) ≤ 4 ∧ (3 : Nat) < 4 ∧
    virtual_block_idx 3 4 (PlainArg.mk true 4 ⟨1, 1, 1⟩) = some ((3 : Nat) : Int) :=
  ⟨by decide, by decide, by decide,
    virtual_block_idx_large_factor (PlainArg.mk true 4 ⟨1, 1, 1⟩) 3 4 4 rfl rfl
      (by decide) (by decide) (by decide)⟩

/-! ## Further arithmetic of `gridp` and of the transposition -/

theorem gridp_natCast (E F : Nat) (hF : F < 2147483648) (hE : E < 4294967296) :
    gridp E (F : Int) = E - E % F := by
  unfold gridp
  rw [toUnsigned_natCast F (by omega)]
  exact Nat.mod_eq_of_lt (Nat.lt_of_le_of_lt (Nat.sub_le _ _) hE)

theorem gridp_eq_mul_div (E F : Nat) (hF : F < 2147483648) (hE : E < 4294967296) :
    gridp E (F : Int) = F * (E / F) := by
  rw [gridp_natCast E F hF hE, sub_mod_eq_mul_div]

theorem index_of_coordinates (F G i j : Nat) (hi : i < F) (hj : j < G) :
    j * F + i < F * G ∧ (j * F + i) % F = i ∧ (j * F + i) / F = j := by
  have hF : 0 < F := by omega
  refine ⟨?_, ?_, ?_⟩
  · nlinarith
  · rw [Nat.mul_comm j F, Nat.mul_add_mod, Nat.mod_eq_of_lt hi]
  · rw [Nat.mul_comm j F, Nat.mul_add_div hF, Nat.div_eq_of_lt hi, Nat.add_zero]

/-! ## Claims on `gridp`, the entry points and definedness -/

/-- C11 (amended): for every grid extent `E` and every swizzle factor `F ≥ E`
(an `int`), the divisible part `gridp = E - E % F` computed by
`virtual_block_idx` is 0 when `F > E`, and is `E` when `F = E`. -/
theorem gridp_large_factor (E F : Nat) (hF : F < 2147483648) (hFE : E ≤ F) :
    gridp E (F : Int) = if F = E then E else 0 := by
  rw [gridp_natCast E F hF (by omega)]
  by_cases h : F = E
  · subst h
    rw [if_pos rfl, Nat.mod_self, Nat.sub_zero]
  · rw [if_neg h, Nat.mod_eq_of_lt (by omega), Nat.sub_self]

/-- Witness for C11: extent 4 with factor 7 has `gridp = 0`. -/
theorem gridp_large_factor_witness :
    (7 : Nat) < 2147483648 ∧ (4 : Nat) ≤ 7 ∧
    gridp 4 ((7 : Nat) : Int) = if 7 = 4 then 4 else 0 :=
  ⟨by decide, by decide, gridp_large_factor 4 7 (by decide) (by decide)⟩

/-- C11 as stated fails at `F = E`: for extent 4 and factor 4 the remainder
`4 % 4` is 0, so `gridp` is 4, not 0. -/
theorem gridp_factor_eq_extent_ne_zero :
    (0 < 4) ∧ (4 ≤ 4) ∧ gridp 4 4 = 4 ∧ gridp 4 4 ≠ 0 := by
  refine ⟨by decide, by decide, by decide, by decide⟩

/-- C12: instantiating either `BlockKernel2D` entry point with
`grid_stride = true` is rejected with the `static_assert` message, and with
`grid_stride = false` it is accepted and is the kernel body; for every
functor and argument type, rejection happens exactly when `grid_stride` is
true. -/
theorem BlockKernel2D_grid_stride_rejected {A σ : Type} [KernelArg A]
    (Functor : A → Dim3 → Dim3 → σ → σ) (c : Builtins) (arg : A) (s : σ) :
    BlockKernel2D_value true Functor c arg s = Except.error grid_stride_message ∧
    BlockKernel2D_resident true Functor c arg s = Except.error grid_stride_message ∧
    (∃ r, BlockKernel2D_value false Functor c arg s = Except.ok r) ∧
    (∃ r, BlockKernel2D_resident false Functor c arg s = Except.ok r) ∧
    (∀ grid_stride : Bool,
      (∃ msg, BlockKernel2D_value grid_stride Functor c arg s = Except.error msg)
        ↔ grid_stride = true) ∧
    (∀ grid_stride : Bool,
      (∃ msg, BlockKernel2D_resident grid_stride Functor c arg s = Except.error msg)
        ↔ grid_stride = true) := by
  refine ⟨rfl, rfl, ⟨_, rfl⟩, ⟨_, rfl⟩, ?_, ?_⟩
  · intro grid_stride
    cases grid_stride
    · simp [BlockKernel2D_value]
    · simp [BlockKernel2D_value]
  · intro grid_stride
    cases grid_stride
    · simp [BlockKernel2D_resident]
    · simp [BlockKernel2D_resident]

/-- C13: for an `int` `swizzle_factor`, `virtual_block_idx` reaches its error
branch (a zero divisor) exactly when `swizzle` is true and
`swizzle_factor = 0`; in particular, with swizzle enabled it is defined for
every extent and index whenever `swizzle_factor ≥ 1`. -/
theorem virtual_block_idx_undefined_iff {A : Type} [KernelArg A] (arg : A) (b E : Nat)
    (hint : -2147483648 ≤ KernelArg.swizzle_factor arg ∧
      KernelArg.swizzle_factor arg < 2147483648) :
    (virtual_block_idx b E arg = none ↔
      (KernelArg.swizzle arg = true ∧ KernelArg.swizzle_factor arg = 0)) ∧
    (1 ≤ KernelArg.swizzle_factor arg → ∃ v : Int, virtual_block_idx b E arg = some v) := by
  constructor
  · constructor
    · intro hnone
      by_cases hsw : KernelArg.swizzle arg = true
      · refine ⟨hsw, ?_⟩
        by_contra hne
        obtain ⟨v, hv⟩ := virtual_block_idx_defined arg b E
          (fun _ => toUnsigned_ne_zero _ hint.1 hint.2 hne)
        rw [hv] at hnone
        exact Option.noConfusion hnone
      · obtain ⟨v, hv⟩ := virtual_block_idx_defined arg b E (fun h => absurd h hsw)
        rw [hv] at hnone
        exact Option.noConfusion hnone
    · rintro ⟨hsw, hz⟩
      unfold virtual_block_idx
      simp [hsw, hz, toUnsigned]
  · intro h1
    exact virtual_block_idx_defined arg b E
      (fun _ => toUnsigned_ne_zero _ hint.1 hint.2 (by omega))

/-- Witness for C13: an argument with swizzle on and factor 3. -/
theorem virtual_block_idx_undefined_iff_witness :
    ((-2147483648 : Int) ≤ 3 ∧ (3 : Int) < 2147483648) ∧
    ((virtual_block_idx 5 10 (PlainArg.mk true 3 ⟨1, 1, 1⟩) = none ↔
      (KernelArg.swizzle (PlainArg.mk true 3 ⟨1, 1, 1⟩) = true ∧
        KernelArg.swizzle_factor (PlainArg.mk true 3 ⟨1, 1, 1⟩) = 0)) ∧
     (1 ≤ KernelArg.swizzle_factor (PlainArg.mk true 3 ⟨1, 1, 1⟩) →
      ∃ v : Int, virtual_block_idx 5 10 (PlainArg.mk true 3 ⟨1, 1, 1⟩) = some v)) :=
  ⟨⟨by decide, by decide⟩,
    virtual_block_idx_undefined_iff (PlainArg.mk true 3 ⟨1, 1, 1⟩) 5 10
      ⟨by decide, by decide⟩⟩

/-- C14: for every argument value `a` and every block and lane position, the
value-mode entry point called with `a` and the resident-mode entry point run
with the resident copy being `a` are both `BlockKernel2D_impl` applied to `a`
unchanged, so they produce the same functor invocations (same trace: count,
argument, block and lane coordinates) and the same final state. -/
theorem BlockKernel2D_value_eq_resident {A σ : Type} [KernelArg A]
    (Functor : A → Dim3 → Dim3 → σ → σ) (c : Builtins) (a : A) (s : σ)
    (trace : List (Invocation A)) :
    BlockKernel2D_value false Functor c a s = Except.ok (BlockKernel2D_impl Functor c a s) ∧
    BlockKernel2D_resident false Functor c a s
      = Except.ok (BlockKernel2D_impl Functor c a s) ∧
    BlockKernel2D_value false recordInvocation c a trace
      = BlockKernel2D_resident false recordInvocation c a trace ∧
    BlockKernel2D_value false recordInvocation c a trace
      = Except.ok (BlockKernel2D_impl recordInvocation c a trace) ∧
    (∀ grid_stride : Bool, BlockKernel2D_value grid_stride Functor c a s
      = BlockKernel2D_resident grid_stride Functor c a s) :=
  ⟨rfl, rfl, rfl, rfl, fun _ => rfl⟩

/-! ## Claims on the transposition -/

theorem swizzle_reference_inverse (b E F : Nat) (hF : 0 < F) (hdiv : E % F = 0)
    (hb : b < E) :
    swizzle_reference (swizzle_reference b E F) E (E / F) = b := by
  have hE : F * (E / F) = E := by
    have := Nat.div_add_mod E F
    omega
  have hb' : b < F * (E / F) := by rw [hE]; exact hb
  have hG : 0 < E / F := by
    rcases Nat.eq_zero_or_pos (E / F) with h0 | h0
    · rw [h0] at hb'
      omega
    · exact h0
  have hEG : E / (E / F) = F := by
    have h := Nat.mul_div_cancel F hG
    rw [hE] at h
    exact h
  obtain ⟨h1, h2⟩ := transpose_div_mod F (E / F) b hF hb'
  have hlt := transpose_lt F (E / F) b hF hb'
  rw [swizzle_reference_eq b E F hF, if_pos hb', swizzle_reference_eq _ E (E / F) hG, hEG,
    Nat.mul_comm (E / F) F, if_pos hlt, h1, h2, Nat.mul_comm (b / F) F]
  exact Nat.div_add_mod b F

/-- C15: the swizzle transposes the divisible part.  With swizzle enabled,
`gridp = E - E % F` and `G = gridp / F`, for every `i` in `[0, F)` (so
`F ≥ 1`) and `j` in `[0, G)` the index `j * F + i` is mapped by
`virtual_block_idx` to `i * G + j`.  `E` and `F` are within the `int` range,
`E < 2^31` being the CUDA limit on `gridDim.x`. -/
theorem virtual_block_idx_transposes {A : Type} [KernelArg A] (arg : A) (E F i j : Nat)
    (hsw : KernelArg.swizzle arg = true) (hfac : KernelArg.swizzle_factor arg = (F : Int))
    (hF : F < 2147483648) (hE : E < 2147483648) (hi : i < F)
    (hj : j < gridp E (F : Int) / F) :
    virtual_block_idx (j * F + i) E arg
      = some ((i * (gridp E (F : Int) / F) + j : Nat) : Int) := by
  have hF0 : 0 < F := by omega
  rw [gridp_eq_mul_div E F hF (by omega), Nat.mul_div_cancel_left _ hF0] at hj ⊢
  obtain ⟨h1, h2, h3⟩ := index_of_coordinates F (E / F) i j hi hj
  have hlt : j * F + i < E := Nat.lt_of_lt_of_le h1 (divisible_part_le E F)
  rw [virtual_block_idx_eq_reference arg (j * F + i) E F hsw hfac hF0 hF hE hlt,
    swizzle_reference_eq _ E F hF0, if_pos h1, h2, h3]

/-- Witness for C15: extent 10, factor 3, `G = 3`; `(i, j) = (2, 1)` is index 5
and goes to `2 * 3 + 1 = 7`. -/
theorem virtual_block_idx_transposes_witness :
    (3 : Nat) < 2147483648 ∧ (10 : Nat) < 2147483648 ∧ (2 : Nat) < 3 ∧
    (1 < gridp 10 ((3 : Nat) : Int) / 3) ∧
    virtual_block_idx (1 * 3 + 2) 10 (PlainArg.mk true 3 ⟨1, 1, 1⟩)
      = some ((2 * (gridp 10 ((3 : Nat) : Int) / 3) + 1 : Nat) : Int) :=
  ⟨by decide, by decide, by decide, by decide,
    virtual_block_idx_transposes (PlainArg.mk true 3 ⟨1, 1, 1⟩) 10 3 2 1 rfl rfl
      (by decide) (by decide) (by decide) (by decide)⟩

/-- C16: with swizzle enabled and `F ≥ 1`, `virtual_block_idx` restricted to
the divisible part `[0, gridp)`, `gridp = E - E % F`, is a bijection of
`[0, gridp)` onto itself (results stay below `gridp`, no collisions, full
coverage), and every index in `[gridp, E)` is a fixed point.  `E` and `F` are
within the `int` range, `E < 2^31` being the CUDA limit on `gridDim.x`. -/
theorem virtual_block_idx_bijective_on_divisible_part {A : Type} [KernelArg A] (arg : A)
    (E F : Nat)
    (hsw : KernelArg.swizzle arg = true) (hfac : KernelArg.swizzle_factor arg = (F : Int))
    (hF1 : 1 ≤ F) (hF : F < 2147483648) (hE : E < 2147483648) :
    (∀ b, b < gridp E (F : Int) →
      ∃ v : Nat, v < gridp E (F : Int) ∧ virtual_block_idx b E arg = some (v : Int)) ∧
    (∀ b b', b < gridp E (F : Int) → b' < gridp E (F : Int) →
      virtual_block_idx b E arg = virtual_block_idx b' E arg → b = b') ∧
    (∀ v, v < gridp E (F : Int) →
      ∃ b, b < gridp E (F : Int) ∧ virtual_block_idx b E arg = some (v : Int)) ∧
    (∀ b, gridp E (F : Int) ≤ b → b < E → virtual_block_idx b E arg = some (b : Int)) := by
  have hle := divisible_part_le E F
  rw [gridp_eq_mul_div E F hF (by omega)]
  refine ⟨?_, ?_, ?_, ?_⟩
  · intro b hb
    exact ⟨swizzle_reference b E F, swizzle_reference_lt_part b E F hF1 hb,
      virtual_block_idx_eq_reference arg b E F hsw hfac hF1 hF hE (by omega)⟩
  · intro b b' hb hb' h
    rw [virtual_block_idx_eq_reference arg b E F hsw hfac hF1 hF hE (by omega),
      virtual_block_idx_eq_reference arg b' E F hsw hfac hF1 hF hE (by omega)] at h
    exact swizzle_reference_injective b b' E F hF1 (Int.ofNat.inj (Option.some.inj h))
  · intro v hv
    obtain ⟨b, hb, hbv⟩ := swizzle_reference_surjective_part v E F hF1 hv
    refine ⟨b, hb, ?_⟩
    rw [virtual_block_idx_eq_reference arg b E F hsw hfac hF1 hF hE (by omega), hbv]
  · intro b hb hbE
    rw [virtual_block_idx_eq_reference arg b E F hsw hfac hF1 hF hE hbE,
      swizzle_reference_fixed b E F hF1 hb]

/-- Witness for C16 at extent 10 and factor 3, where `gridp = 9`. -/
theorem virtual_block_idx_bijective_on_divisible_part_witness :
    1 ≤ 3 ∧ (3 : Nat) < 2147483648 ∧ (10 : Nat) < 2147483648 ∧
    ((∀ b : Nat, b < gridp 10 ((3 : Nat) : Int) →
      ∃ v : Nat, v < gridp 10 ((3 : Nat) : Int) ∧
        virtual_block_idx b 10 (PlainArg.mk true 3 ⟨1, 1, 1⟩) = some (v : Int)) ∧
    (∀ b b' : Nat, b < gridp 10 ((3 : Nat) : Int) → b' < gridp 10 ((3 : Nat) : Int) →
      virtual_block_idx b 10 (PlainArg.mk true 3 ⟨1, 1, 1⟩)
        = virtual_block_idx b' 10 (PlainArg.mk true 3 ⟨1, 1, 1⟩) → b = b') ∧
    (∀ v : Nat, v < gridp 10 ((3 : Nat) : Int) →
      ∃ b : Nat, b < gridp 10 ((3 : Nat) : Int) ∧
        virtual_block_idx b 10 (PlainArg.mk true 3 ⟨1, 1, 1⟩) = some (v : Int)) ∧
    (∀ b : Nat, gridp 10 ((3 : Nat) : Int) ≤ b → b < 10 →
      virtual_block_idx b 10 (PlainArg.mk true 3 ⟨1, 1, 1⟩) = some (b : Int))) :=
  ⟨by decide, by decide, by decide,
    virtual_block_idx_bijective_on_divisible_part (PlainArg.mk true 3 ⟨1, 1, 1⟩) 10 3
      rfl rfl (by decide) (by decide) (by decide)⟩

/-- C17: when the swizzle factor `F ≥ 1` divides the grid extent `E` exactly,
swizzling with factor `E / F` undoes swizzling with factor `F`: for every
index in `[0, E)`, `virtual_block_idx` with factor `E / F` applied to the
result of `virtual_block_idx` with factor `F` returns the index; and when
`E = F * F`, applying the factor `F` twice is the identity.  `E < 2^31` is
the CUDA limit on `gridDim.x`. -/
theorem virtual_block_idx_inverse_factor {A : Type} [KernelArg A] (argF argG : A)
    (E F b : Nat)
    (hswF : KernelArg.swizzle argF = true)
    (hfacF : KernelArg.swizzle_factor argF = (F : Int))
    (hswG : KernelArg.swizzle argG = true)
    (hfacG : KernelArg.swizzle_factor argG = ((E / F : Nat) : Int))
    (hF1 : 1 ≤ F) (hdiv : E % F = 0) (hE : E < 2147483648) (hb : b < E) :
    (∃ v : Nat, v < E ∧ virtual_block_idx b E argF = some (v : Int) ∧
      virtual_block_idx v E argG = some (b : Int)) ∧
    (E = F * F → ∃ v : Nat, v < E ∧ virtual_block_idx b E argF = some (v : Int) ∧
      virtual_block_idx v E argF = some (b : Int)) := by
  have hEq : F * (E / F) = E := by
    have := Nat.div_add_mod E F
    omega
  have hG : 1 ≤ E / F := by
    rcases Nat.eq_zero_or_pos (E / F) with h0 | h0
    · rw [h0] at hEq
      omega
    · exact h0
  have hGE : E / F ≤ E := Nat.div_le_self E F
  have hFE : F ≤ E := by
    calc F = F * 1 := (Nat.mul_one F).symm
      _ ≤ F * (E / F) := Nat.mul_le_mul_left F hG
      _ = E := hEq
  have hF : F < 2147483648 := by omega
  have hv : swizzle_reference b E F < E := swizzle_reference_lt b E F hF1 hb
  have main : ∀ arg : A, KernelArg.swizzle arg = true →
      KernelArg.swizzle_factor arg = ((E / F : Nat) : Int) →
      ∃ v : Nat, v < E ∧ virtual_block_idx b E argF = some (v : Int) ∧
        virtual_block_idx v E arg = some (b : Int) := by
    intro arg hsw hfac
    refine ⟨swizzle_reference b E F, hv,
      virtual_block_idx_eq_reference argF b E F hswF hfacF hF1 hF hE hb, ?_⟩
    rw [virtual_block_idx_eq_reference arg _ E (E / F) hsw hfac hG (by omega) hE hv,
      swizzle_reference_inverse b E F hF1 hdiv hb]
  refine ⟨main argG hswG hfacG, ?_⟩
  intro hsq
  have hq : E / F = F := by
    rw [hsq]
    exact Nat.mul_div_cancel F hF1
  exact main argF hswF (by rw [hfacF, hq])

/-- Witness for C17: extent 6, factor 2 and then factor 3, index 1 (it goes
to 3 and back to 1). -/
theorem virtual_block_idx_inverse_factor_witness :
    1 ≤ 2 ∧ 6 % 2 = 0 ∧ (6 : Nat) < 2147483648 ∧ (1 : Nat) < 6 ∧
    ((∃ v : Nat, v < 6 ∧
        virtual_block_idx 1 6 (PlainArg.mk true 2 ⟨1, 1, 1⟩) = some (v : Int) ∧
        virtual_block_idx v 6 (PlainArg.mk true 3 ⟨1, 1, 1⟩) = some ((1 : Nat) : Int)) ∧
     (6 = 2 * 2 → ∃ v : Nat, v < 6 ∧
        virtual_block_idx 1 6 (PlainArg.mk true 2 ⟨1, 1, 1⟩) = some (v : Int) ∧
        virtual_block_idx v 6 (PlainArg.mk true 2 ⟨1, 1, 1⟩) = some ((1 : Nat) : Int))) :=
  ⟨by decide, by decide, by decide, by decide,
    virtual_block_idx_inverse_factor (PlainArg.mk true 2 ⟨1, 1, 1⟩)
      (PlainArg.mk true 3 ⟨1, 1, 1⟩) 6 2 1 rfl rfl rfl rfl
      (by decide) (by decide) (by decide) (by decide)⟩

/-- C18: for every grid extent `0 < E < 2^31`, factor `1 ≤ F < 2^31` and index
in `[0, E)`, the fixed-width computation of `virtual_block_idx` never wraps:
`gridp`, `gridp / F`, `i`, `j` and, on the transposing branch, `i * (gridp / F)`
and `i * (gridp / F) + j` are all below `2^31` and equal their values over
unbounded integers, and the returned `int` is the result of the same formula
over unbounded integers. -/
theorem virtual_block_idx_no_wrap {A : Type} [KernelArg A] (arg : A) (E F index : Nat)
    (hsw : KernelArg.swizzle arg = true) (hfac : KernelArg.swizzle_factor arg = (F : Int))
    (hE : E < 2147483648) (hF1 : 1 ≤ F) (hF : F < 2147483648) (hb : index < E) :
    gridp E (F : Int) = E - E % F ∧ gridp E (F : Int) < 2147483648 ∧
    gridp E (F : Int) / F < 2147483648 ∧
    index % F < 2147483648 ∧ toInt (index % F) = ((index % F : Nat) : Int) ∧
    index / F < 2147483648 ∧ toInt (index / F) = ((index / F : Nat) : Int) ∧
    (index < gridp E (F : Int) →
      (index % F) * (gridp E (F : Int) / F) < 2147483648 ∧
      (index % F) * (gridp E (F : Int) / F) + index / F < 2147483648 ∧
      (toUnsigned (toInt (index % F)) * (gridp E (F : Int) / F) % 4294967296
          + toUnsigned (toInt (index / F))) % 4294967296
        = (index % F) * ((E - E % F) / F) + index / F) ∧
    virtual_block_idx index E arg
      = some (((if index < E - E % F then (index % F) * ((E - E % F) / F) + index / F
          else index : Nat)) : Int) := by
  have hF0 : 0 < F := hF1
  have hgp := gridp_natCast E F hF (by omega)
  have hle : E - E % F ≤ E := Nat.sub_le _ _
  have hi : index % F < F := Nat.mod_lt _ hF0
  have hj : index / F ≤ index := Nat.div_le_self index F
  have hq : (E - E % F) / F ≤ E - E % F := Nat.div_le_self _ _
  rw [hgp]
  refine ⟨rfl, by omega, by omega, by omega, toInt_of_lt _ (by omega), by omega,
    toInt_of_lt _ (by omega), ?_, virtual_block_idx_eq_reference arg index E F hsw hfac hF1 hF hE hb⟩
  intro hlt
  have hlt' : index < F * (E / F) := by
    rw [← sub_mod_eq_mul_div]
    exact hlt
  have hs : index % F * ((E - E % F) / F) + index / F < 2147483648 := by
    rw [divisible_part_div E F hF0]
    exact Nat.lt_of_lt_of_le (transpose_lt F (E / F) index hF0 hlt')
      (Nat.le_trans (divisible_part_le E F) (Nat.le_of_lt hE))
  have hp : index % F * ((E - E % F) / F) < 2147483648 :=
    Nat.lt_of_le_of_lt (Nat.le_add_right _ _) hs
  refine ⟨hp, hs, ?_⟩
  rw [toUnsigned_toInt _ (by omega), toUnsigned_toInt _ (by omega),
    Nat.mod_eq_of_lt (Nat.lt_trans hp (by decide)),
    Nat.mod_eq_of_lt (Nat.lt_trans hs (by decide))]

/-- Witness for C18: extent 10, factor 3, index 5. -/
theorem virtual_block_idx_no_wrap_witness :
    (10 : Nat) < 2147483648 ∧ 1 ≤ 3 ∧ (3 : Nat) < 2147483648 ∧ (5 : Nat) < 10 ∧
    (gridp 10 ((3 : Nat) : Int) = 10 - 10 % 3 ∧ gridp 10 ((3 : Nat) : Int) < 2147483648 ∧
    gridp 10 ((3 : Nat) : Int) / 3 < 2147483648 ∧
    5 % 3 < 2147483648 ∧ toInt (5 % 3) = ((5 % 3 : Nat) : Int) ∧
    5 / 3 < 2147483648 ∧ toInt (5 / 3) = ((5 / 3 : Nat) : Int) ∧
    (5 < gridp 10 ((3 : Nat) : Int) →
      (5 % 3) * (gridp 10 ((3 : Nat) : Int) / 3) < 2147483648 ∧
      (5 % 3) * (gridp 10 ((3 : Nat) : Int) / 3) + 5 / 3 < 2147483648 ∧
      (toUnsigned (toInt (5 % 3)) * (gridp 10 ((3 : Nat) : Int) / 3) % 4294967296
          + toUnsigned (toInt (5 / 3))) % 4294967296
        = (5 % 3) * ((10 - 10 % 3) / 3) + 5 / 3) ∧
    virtual_block_idx 5 10 (PlainArg.mk true 3 ⟨1, 1, 1⟩)
      = some (((if 5 < 10 - 10 % 3 then (5 % 3) * ((10 - 10 % 3) / 3) + 5 / 3
          else 5 : Nat)) : Int)) :=
  ⟨by decide, by decide, by decide, by decide,
    virtual_block_idx_no_wrap (PlainArg.mk true 3 ⟨1, 1, 1⟩) 10 3 5 rfl rfl
      (by decide) (by decide) (by decide) (by decide)⟩

/-- C19: for every extent `E` (an `unsigned int`) and factor `F ≥ 1` (an
`int`), `gridp = E - E % F` is the largest multiple of `F` not exceeding `E`:
`F` divides `gridp`, `gridp ≤ E`, `E - gridp < F`, and every multiple of `F`
that is at most `E` is at most `gridp`. -/
theorem gridp_largest_multiple (E F : Nat) (hF1 : 1 ≤ F) (hF : F < 2147483648)
    (hE : E < 4294967296) :
    F ∣ gridp E (F : Int) ∧ gridp E (F : Int) ≤ E ∧ E - gridp E (F : Int) < F ∧
    (∀ m, F ∣ m → m ≤ E → m ≤ gridp E (F : Int)) := by
  have hF0 : 0 < F := hF1
  rw [gridp_eq_mul_div E F hF hE]
  have hdm := Nat.div_add_mod E F
  have hm : E % F < F := Nat.mod_lt _ hF0
  refine ⟨Nat.dvd_mul_right F (E / F), divisible_part_le E F, by omega, ?_⟩
  intro m hdvd hmE
  obtain ⟨k, rfl⟩ := hdvd
  have hk : k ≤ E / F := by
    rw [Nat.le_div_iff_mul_le hF0, Nat.mul_comm]
    exact hmE
  exact Nat.mul_le_mul_left F hk

/-- Witness for C19: extent 10 and factor 3, where `gridp = 9`. -/
theorem gridp_largest_multiple_witness :
    1 ≤ 3 ∧ (3 : Nat) < 2147483648 ∧ (10 : Nat) < 4294967296 ∧
    (3 ∣ gridp 10 ((3 : Nat) : Int) ∧ gridp 10 ((3 : Nat) : Int) ≤ 10 ∧
      10 - gridp 10 ((3 : Nat) : Int) < 3 ∧
      (∀ m, 3 ∣ m → m ≤ 10 → m ≤ gridp 10 ((3 : Nat) : Int))) :=
  ⟨by decide, by decide, by decide,
    gridp_largest_multiple 10 3 (by decide) (by decide) (by decide)⟩

end quda
